import Mathlib

/-
  Verification of the L1-to-L2 ingestion and mempool core of the
  stacks-hyperchains node.

  The definitions below are a shallow embedding of the Rust sources:

  * testnet/stacks-node/src/burnchains/db_indexer.rs  (namespace Indexer)
  * src/burnchains/events.rs                          (namespace Events)
  * src/core/mempool.rs                               (namespace Mempool)

  SQLite tables become Lean lists of row structures; hashes, addresses and
  contract identifiers become Nat or String; a Rust panic or database error
  is modelled by Option.none / Except.error.  Loops that walk parent
  pointers take an explicit fuel argument; a run that exhausts the fuel is
  also modelled as none (the Rust loops can diverge on pointer cycles).
-/

namespace Indexer

/-- A row of the headers table, as created by DB_BURNCHAIN_SCHEMA in
db_indexer.rs: (height, header_hash PRIMARY KEY, parent_header_hash,
time_stamp, is_canonical). -/
structure HeaderRow where
  height : Nat
  header_hash : Nat
  parent_header_hash : Nat
  time_stamp : Nat
  is_canonical : Bool
  deriving DecidableEq, Repr

/-- The headers table: rows in insertion order. -/
abbrev HeaderStore := List HeaderRow

/-- An incoming header as carried by a BurnHeaderIPC trait object
(height and time stamp are u64 on this side). -/
structure BurnHeader where
  height : Nat
  header_hash : Nat
  parent_header_hash : Nat
  time_stamp : Nat
  deriving DecidableEq, Repr

/-- View of a stored row through the BurnHeaderIPC impl of BurnHeaderDBRow. -/
def rowIPC (r : HeaderRow) : BurnHeader :=
  { height := r.height
    header_hash := r.header_hash
    parent_header_hash := r.parent_header_hash
    time_stamp := r.time_stamp }

/-- SELECT * FROM headers WHERE header_hash = h (used all over
db_indexer.rs; header_hash is the primary key, so at most one row). -/
def findHeader (st : HeaderStore) (h : Nat) : Option HeaderRow :=
  st.find? (fun r => r.header_hash == h)

/-- UPDATE headers SET is_canonical = flag WHERE header_hash = h. -/
def setCanonical (st : HeaderStore) (h : Nat) (flag : Bool) : HeaderStore :=
  st.map (fun r => if r.header_hash = h then { r with is_canonical := flag } else r)

/-- The strict order a is smaller than b used for tip selection:
lower height, ties broken by smaller header hash.  This is the order of
ORDER BY height DESC, header_hash DESC and of compare_headers. -/
def keyLt (a b : HeaderRow) : Prop :=
  a.height < b.height ∨ (a.height = b.height ∧ a.header_hash < b.header_hash)

instance (a b : HeaderRow) : Decidable (keyLt a b) := by
  unfold keyLt; exact inferInstance

/-- One step of scanning for the row that maximises (height, header_hash). -/
def chooseTip (acc : Option HeaderRow) (r : HeaderRow) : Option HeaderRow :=
  match acc with
  | none => some r
  | some m => if keyLt m r then some r else some m

/-- get_canonical_chain_tip: SELECT * FROM headers ORDER BY height DESC,
header_hash DESC (first row).  Note that the SQL has no filter on
is_canonical: the scan is over every row of the table. -/
def getCanonicalChainTip (st : HeaderStore) : Option HeaderRow :=
  st.foldl chooseTip none

/-- The tip the specification describes: the lexicographic maximum of
(height, header_hash) restricted to the rows with is_canonical = true.
Modelled from the spec for comparison with getCanonicalChainTip. -/
def canonicalTipSpec (st : HeaderStore) : Option HeaderRow :=
  (st.filter (fun r => r.is_canonical)).foldl chooseTip none

/-- compare_headers from db_indexer.rs: -1 when a is greater, 1 when b is
greater, 0 when equal, comparing (height, header_hash). -/
def compareHeaders (a b : BurnHeader) : Int :=
  if a.height > b.height then -1
  else if a.height < b.height then 1
  else if a.header_hash > b.header_hash then -1
  else if a.header_hash < b.header_hash then 1
  else 0

/-- Step 1 of process_reorg: walk up from the parent of the new tip,
setting is_canonical = true, until a row that is already canonical is
found (the greatest common ancestor).  none models the panic on a missing
row, or fuel exhaustion on a pointer cycle. -/
def reorgUpWalk : Nat → HeaderStore → Nat → Option (HeaderStore × HeaderRow)
  | 0, _, _ => none
  | fuel + 1, st, cursor =>
    match findHeader st cursor with
    | none => none
    | some row =>
      if row.is_canonical then some (st, row)
      else reorgUpWalk fuel (setCanonical st cursor true) row.parent_header_hash

/-- Step 2 of process_reorg: walk down from the old tip, setting
is_canonical = false, stopping on the row whose hash equals the hash of
the greatest common ancestor. -/
def reorgDownWalk : Nat → HeaderStore → Nat → Nat → Option HeaderStore
  | 0, _, _, _ => none
  | fuel + 1, st, cursor, gcaHash =>
    match findHeader st cursor with
    | none => none
    | some row =>
      if row.header_hash = gcaHash then some st
      else reorgDownWalk fuel (setCanonical st cursor false) row.parent_header_hash gcaHash

/-- process_reorg from db_indexer.rs.  Returns the mutated store and the
height of the greatest common ancestor. -/
def processReorg (fuel : Nat) (st : HeaderStore) (newTip oldTip : BurnHeader) :
    Option (HeaderStore × Nat) :=
  match reorgUpWalk fuel st newTip.parent_header_hash with
  | none => none
  | some (st1, gca) =>
    match reorgDownWalk fuel st1 oldTip.header_hash gca.header_hash with
    | none => none
    | some st2 => some (st2, gca.height)

/-- The row INSERT INTO headers writes for an incoming header: height and
time_stamp are cast to u32 before binding. -/
def rowOfHeader (hdr : BurnHeader) (canonical : Bool) : HeaderRow :=
  { height := hdr.height % 2 ^ 32
    header_hash := hdr.header_hash
    parent_header_hash := hdr.parent_header_hash
    time_stamp := hdr.time_stamp % 2 ^ 32
    is_canonical := canonical }

/-- INSERT INTO headers ...: fails (unique primary key on header_hash)
when a row with the same hash is already present. -/
def insertHeader (st : HeaderStore) (hdr : BurnHeader) (canonical : Bool) :
    Option HeaderStore :=
  if st.any (fun r => r.header_hash == hdr.header_hash) then none
  else some (st ++ [rowOfHeader hdr canonical])

/-- The decision made by push_block: (is_canonical, needs_reorg). -/
def pushDecision (st : HeaderStore) (hdr : BurnHeader) : Bool × Bool :=
  match getCanonicalChainTip st with
  | none => (true, false)
  | some tip =>
    if hdr.parent_header_hash = tip.header_hash then (true, false)
    else if compareHeaders (rowIPC tip) hdr > 0 then (true, true)
    else (false, false)

/-- DBBurnBlockInputChannel::push_block: read the current tip, decide the
canonical flag, insert the row, and run process_reorg when required. -/
def pushBlock (fuel : Nat) (st : HeaderStore) (hdr : BurnHeader) : Option HeaderStore :=
  match insertHeader st hdr (pushDecision st hdr).1 with
  | none => none
  | some st1 =>
    if (pushDecision st hdr).2 then
      match getCanonicalChainTip st with
      | none => none
      | some tip => (processReorg fuel st1 hdr (rowIPC tip)).map Prod.fst
    else some st1

/-- The strict comparison the spec words use for tip replacement: the
incoming header is greater than the stored tip row when its height is
higher, ties broken by lexicographically greater hash. -/
def headerGt (hdr : BurnHeader) (tip : HeaderRow) : Prop :=
  tip.height < hdr.height ∨ (tip.height = hdr.height ∧ tip.header_hash < hdr.header_hash)

instance (hdr : BurnHeader) (tip : HeaderRow) : Decidable (headerGt hdr tip) := by
  unfold headerGt; exact inferInstance

/-- Clear the canonical flag of every row whose hash is listed.  Used to
describe the cumulative effect of the reorg down-walk. -/
def unsetMany (hs : List Nat) (st : HeaderStore) : HeaderStore :=
  st.map (fun r => if r.header_hash ∈ hs then { r with is_canonical := false } else r)

/-- Every row carrying the hash c has a cleared canonical flag. -/
def allFalseAt (st : HeaderStore) (c : Nat) : Prop :=
  ∀ r ∈ st, r.header_hash = c → r.is_canonical = false

/-- The remaining façade state of DBBurnchainIndexer that find_chain_reorg
uses: the connection (the store) and the cached last canonical tip. -/
structure IndexerState where
  store : HeaderStore
  last_canonical_tip : Option HeaderRow
  deriving DecidableEq, Repr

/-- The helper is_canonical from db_indexer.rs: none models the panic of
the two expect calls when the hash is not in the table. -/
def isCanonicalQuery (st : HeaderStore) (h : Nat) : Option Bool :=
  (findHeader st h).map (fun r => r.is_canonical)

/-- get_highest_header_height: SELECT MAX(height) FROM headers, with 0 for
an empty table.  The scan is over every row, canonical or not. -/
def getHighestHeaderHeight (st : HeaderStore) : Nat :=
  st.foldl (fun acc r => max acc r.height) 0

/-- The quantity the specification names "current highest canonical
height".  Modelled from the spec for comparison with
getHighestHeaderHeight. -/
def highestCanonicalHeightSpec (st : HeaderStore) : Nat :=
  (st.filter (fun r => r.is_canonical)).foldl (fun acc r => max acc r.height) 0

/-- find_first_canonical_ancestor: walk up the parent pointers from a hash
until a canonical row is found, returning its height.  none models the
panic on a missing row (or fuel exhaustion on a cycle). -/
def findFirstCanonicalAncestor : Nat → HeaderStore → Nat → Option Nat
  | 0, _, _ => none
  | fuel + 1, st, cursor =>
    match findHeader st cursor with
    | none => none
    | some row =>
      if row.is_canonical then some row.height
      else findFirstCanonicalAncestor fuel st row.parent_header_hash

/-- DBBurnchainIndexer::find_chain_reorg.  Returns the reported height and
the updated façade state (the cache is refreshed with the current result
of get_canonical_chain_tip on every exit path that returns Ok). -/
def findChainReorg (fuel : Nat) (ixs : IndexerState) : Option (Nat × IndexerState) :=
  match ixs.last_canonical_tip with
  | none =>
    let newTip := getCanonicalChainTip ixs.store
    some ((newTip.map (fun t => t.height)).getD 0,
          { ixs with last_canonical_tip := newTip })
  | some last =>
    match isCanonicalQuery ixs.store last.header_hash with
    | none => none
    | some stillCanonical =>
      let result :=
        if stillCanonical then some (getHighestHeaderHeight ixs.store)
        else findFirstCanonicalAncestor fuel ixs.store last.header_hash
      result.map (fun hh =>
        (hh, { ixs with last_canonical_tip := getCanonicalChainTip ixs.store }))

/-- The column names of the headers table created by DB_BURNCHAIN_SCHEMA. -/
def headersTableColumns : List String :=
  ["height", "header_hash", "parent_header_hash", "time_stamp", "is_canonical"]

/-- Value of a named column of a headers row (booleans stored as 0 or 1). -/
def rowColumnValue (r : HeaderRow) (col : String) : Option Nat :=
  if col = "height" then some r.height
  else if col = "header_hash" then some r.header_hash
  else if col = "parent_header_hash" then some r.parent_header_hash
  else if col = "time_stamp" then some r.time_stamp
  else if col = "is_canonical" then some (if r.is_canonical then 1 else 0)
  else none

/-- SELECT * FROM headers WHERE col = v.  When the named column does not
exist in the schema, SQLite fails to prepare the statement and query_row
returns an error, modelled by the outer none. -/
def queryHeaderWhere (st : HeaderStore) (col : String) (v : Nat) :
    Option (Option HeaderRow) :=
  if col ∈ headersTableColumns then
    some (st.find? (fun r => (rowColumnValue r col).getD 0 == v))
  else none

/-- DBBurnchainIndexer::get_header_for_hash.  The Rust query is
SELECT * FROM headers WHERE burn_header_hash = ?1, naming a column that
the headers schema does not define (the schema column is header_hash), so
the query errors and the expect calls panic; none models the panic, on the
query error as well as on a missing row. -/
def getHeaderForHash (st : HeaderStore) (h : Nat) : Option HeaderRow :=
  match queryHeaderWhere st "burn_header_hash" h with
  | none => none
  | some none => none
  | some (some r) => some r

/-- DBBurnchainIndexer::get_first_block_height (and the hash and timestamp
variants, which read the same row through get_header_for_hash). -/
def getFirstBlockHeight (st : HeaderStore) (firstBurnHeaderHash : Nat) : Option Nat :=
  (getHeaderForHash st firstBurnHeaderHash).map (fun r => r.height)

/-
  Concrete data used by witnesses and counterexamples.
-/

/-- Delivery 1: the first block; its parent pointer 14 is the hash of the
block delivered fifth. -/
def hdrA : BurnHeader := ⟨3, 10, 14, 0⟩

/-- Delivery 2: a low side block; its parent pointer 2 is the hash of the
block delivered third. -/
def hdrW1 : BurnHeader := ⟨0, 1, 2, 0⟩

/-- Delivery 3: a low side block pointing back at delivery 2. -/
def hdrW2 : BurnHeader := ⟨0, 2, 1, 0⟩

/-- Delivery 4: fast-path child of delivery 1. -/
def hdrB : BurnHeader := ⟨4, 11, 10, 0⟩

/-- Delivery 5: a higher block whose hash resolves the dangling parent
pointer of delivery 1 and whose parent is delivery 2. -/
def hdrN : BurnHeader := ⟨5, 14, 1, 0⟩

/-- The store produced by delivering hdrA, hdrW1, hdrW2, hdrB, hdrN in
order to the ingest channel starting from the empty store. -/
def c3State : HeaderStore :=
  [⟨3, 10, 14, 0, false⟩, ⟨0, 1, 2, 0, true⟩, ⟨0, 2, 1, 0, true⟩,
   ⟨4, 11, 10, 0, false⟩, ⟨5, 14, 1, 0, false⟩]

/-- The row get_canonical_chain_tip returns on c3State. -/
def c3TipRow : HeaderRow := ⟨5, 14, 1, 0, false⟩

/-- The five-delivery trace: every push returns Ok. -/
def c3Trace : Option HeaderStore :=
  (pushBlock 10 [] hdrA).bind fun s1 =>
  (pushBlock 10 s1 hdrW1).bind fun s2 =>
  (pushBlock 10 s2 hdrW2).bind fun s3 =>
  (pushBlock 10 s3 hdrB).bind fun s4 =>
  pushBlock 10 s4 hdrN

/-- C2 witness store: one canonical row. -/
def c2wStore : HeaderStore := [⟨1, 10, 0, 0, true⟩]

/-- C2 witness delivery: fast-path child of the single row. -/
def c2wHdr : BurnHeader := ⟨2, 11, 10, 0⟩

/-- C4 counterexample store: canonical root 10, non-canonical child 11,
canonical child 12 (the tip). -/
def c4Store : HeaderStore :=
  [⟨0, 10, 99, 0, true⟩, ⟨1, 11, 10, 0, false⟩, ⟨2, 12, 10, 0, true⟩]

/-- C4 counterexample reorg pair: the new tip descends from the
non-canonical row 11. -/
def c4New : BurnHeader := ⟨3, 13, 11, 0⟩

/-- C4 counterexample old tip: the canonical row 12. -/
def c4Old : BurnHeader := ⟨2, 12, 10, 0⟩

/-- The store after the first (successful) C4 counterexample reorg. -/
def c4StoreAfter : HeaderStore :=
  [⟨0, 10, 99, 0, true⟩, ⟨1, 11, 10, 0, true⟩, ⟨2, 12, 10, 0, false⟩]

/-- C4 witness store: canonical root 10 and canonical tip 12; the new tip
descends directly from the root, which is already canonical. -/
def c4wStore : HeaderStore := [⟨0, 10, 99, 0, true⟩, ⟨2, 12, 10, 0, true⟩]

/-- C4 witness new tip (parent is the canonical root). -/
def c4wNew : BurnHeader := ⟨3, 13, 10, 0⟩

/-- C4 witness old tip. -/
def c4wOld : BurnHeader := ⟨2, 12, 10, 0⟩

/-- C4 witness store after the reorg. -/
def c4wStoreAfter : HeaderStore := [⟨0, 10, 99, 0, true⟩, ⟨2, 12, 10, 0, false⟩]

/-- C5 store: one canonical row. -/
def c5Store : HeaderStore := [⟨1, 10, 0, 0, true⟩]

/-- C5 counterexample delivery: unknown parent 77 and (height, hash)
exceeding the tip. -/
def c5Big : BurnHeader := ⟨2, 11, 77, 0⟩

/-- C5 witness delivery: unknown parent 77, not exceeding the tip. -/
def c5Small : BurnHeader := ⟨0, 5, 77, 0⟩

/-- C8 counterexample façade state: cached tip is the canonical row 1 at
height 1, while a non-canonical row sits at height 5. -/
def c8State : IndexerState :=
  { store := [⟨1, 1, 0, 0, true⟩, ⟨5, 2, 1, 0, false⟩]
    last_canonical_tip := some ⟨1, 1, 0, 0, true⟩ }

/-- C8 witness façade state: cached tip 2 is no longer canonical; its
first canonical ancestor is the root at height 1. -/
def c8wState : IndexerState :=
  { store := [⟨1, 1, 0, 0, true⟩, ⟨2, 2, 1, 0, false⟩, ⟨3, 3, 1, 0, true⟩]
    last_canonical_tip := some ⟨2, 2, 1, 0, false⟩ }

/-- C9 store: contains the pinned first-burn header with hash 42. -/
def c9Store : HeaderStore := [⟨7, 42, 0, 5, true⟩]

end Indexer

namespace Events

/-- The fragment of Clarity values the decoder inspects.  strAscii models
Value::Sequence(SequenceData::String(CharType::ASCII)); principalVal and
the numeric variants stand for the other value shapes an event payload can
carry. -/
inductive ClarityValue where
  | uintVal (n : Nat)
  | intVal (n : Int)
  | buff (bytes : List Nat)
  | strAscii (s : String)
  | principalVal (p : String)
  | tupleVal (fields : List (String × ClarityValue))
  deriving Repr

/-- Display form of a Clarity ASCII string, as produced by to_string in
the decoder: the contents wrapped in double quotes.  The decoder compares
this quoted form against the literal in its match. -/
def displayAsciiString (s : String) : String := "\"" ++ s ++ "\""

/-- TupleData::get: the value of the named field of a tuple. -/
def tupleGet (fields : List (String × ClarityValue)) (name : String) :
    Option ClarityValue :=
  (fields.find? (fun f => f.1 == name)).map (fun f => f.2)

/-- The payload of a decoded subnet operation.  blockCommit is the only
variant the decoder in events.rs constructs.  Modelled from the spec: the
remaining variants (deposits, withdrawals, asset registration) are taken
from the spec data model; the enum declaring them lives in
burnchains/mod.rs, which is not among the provided sources, and no code in
the sources builds them. -/
inductive StacksHyperOpType where
  | blockCommit (subnet_block_hash : List Nat)
  | depositStx (amount : Nat) (sender : String)
  | depositFt (l1_contract subnet_contract name : String) (amount : Nat)
      (sender : String)
  | depositNft (l1_contract subnet_contract : String) (id : Nat) (sender : String)
  | withdrawFt (l1_contract subnet_contract name : String) (amount : Nat)
      (recipient : String)
  | withdrawNft (l1_contract subnet_contract : String) (id : Nat) (recipient : String)
  | withdrawStx (amount : Nat) (recipient : String)
  | registerAsset (l1_contract subnet_contract asset_kind : String)
  deriving DecidableEq, Repr

/-- A decoded subnet operation (StacksHyperOp). -/
structure StacksHyperOp where
  txid : Nat
  event_index : Nat
  in_block : Nat
  opcode : Nat
  event : StacksHyperOpType
  deriving DecidableEq, Repr

/-- StacksHyperOp::try_from_clar_value from events.rs.  The match on the
event tag has exactly one arm, the quoted string block-commit; every other
tag falls into the catch-all and produces an error. -/
def tryFromClarValue (v : ClarityValue) (txid : Nat) (event_index : Nat)
    (in_block : Nat) : Except String StacksHyperOp :=
  match v with
  | ClarityValue.tupleVal fields =>
    match tupleGet fields "event" with
    | none => Except.error "No event field in Clarity tuple"
    | some ev =>
      match ev with
      | ClarityValue.strAscii s =>
        if displayAsciiString s = "\"block-commit\"" then
          match tupleGet fields "block-commit" with
          | none => Except.error "No block-commit field in Clarity tuple"
          | some (ClarityValue.buff bytes) =>
            if bytes.length = 32 then
              Except.ok
                { txid := txid, event_index := event_index, in_block := in_block,
                  opcode := 0, event := StacksHyperOpType.blockCommit bytes }
            else Except.error "Expected block-commit type to be length 32"
          | some _ => Except.error "Expected block-commit type to be buffer"
        else Except.error ("Unexpected event string: " ++ displayAsciiString s)
      | _ => Except.error "Expected event type to be string"
  | _ => Except.error "Expected Clarity type to be tuple"

/-- Transaction event type of the events API (contract_event or other). -/
inductive TxEventType where
  | contractEvent
  | other
  deriving DecidableEq, Repr

/-- The contract_event field of a transaction event. -/
structure ContractEvent where
  contract_identifier : String
  topic : String
  value : ClarityValue

/-- A transaction event of a NewBlock envelope. -/
structure NewBlockTxEvent where
  txid : Nat
  event_index : Nat
  committed : Bool
  event_type : TxEventType
  contract_event : Option ContractEvent

/-- A NewBlock envelope of the events API. -/
structure NewBlock where
  block_height : Nat
  burn_block_time : Nat
  index_block_hash : Nat
  parent_index_block_hash : Nat
  events : List NewBlockTxEvent

/-- A StacksHyperBlock: the ordered operations of one L1 block. -/
structure StacksHyperBlock where
  current_block : Nat
  parent_block : Nat
  block_height : Nat
  ops : List StacksHyperOp
  deriving DecidableEq, Repr

/-- StacksHyperBlock::from_new_block_event: keep committed contract events
of the governing contract whose index fits in u32 and whose payload
decodes; decode failures are skipped, never fatal. -/
def fromNewBlockEvent (subnets_contract : String) (b : NewBlock) :
    StacksHyperBlock :=
  { current_block := b.index_block_hash
    parent_block := b.parent_index_block_hash
    block_height := b.block_height
    ops := b.events.filterMap (fun e =>
      if !e.committed then none
      else if e.event_type ≠ TxEventType.contractEvent then none
      else if 2 ^ 32 ≤ e.event_index then none
      else
        match e.contract_event with
        | none => none
        | some ce =>
          if ce.contract_identifier ≠ subnets_contract then none
          else
            match tryFromClarValue ce.value e.txid e.event_index
                b.index_block_hash with
            | Except.ok x => some x
            | Except.error _ => none) }

/-- The dispatch-table tags of the claim other than block-commit. -/
def otherOpTags : List String :=
  ["deposit-stx", "deposit-ft", "deposit-nft", "withdraw-ft", "withdraw-nft",
   "withdraw-stx", "register-asset"]

/-- A deposit-stx payload with the fields of the spec table: event tag
deposit-stx, a uint amount and a principal sender. -/
def depositStxTuple : ClarityValue :=
  ClarityValue.tupleVal
    [("event", ClarityValue.strAscii "deposit-stx"),
     ("amount", ClarityValue.uintVal 100),
     ("sender", ClarityValue.principalVal "ST2QKZ4FKHJ4DCRJ9DAFQ938CB82XADQstx")]

/-- The field list of depositStxTuple. -/
def depositStxFields : List (String × ClarityValue) :=
  [("event", ClarityValue.strAscii "deposit-stx"),
   ("amount", ClarityValue.uintVal 100),
   ("sender", ClarityValue.principalVal "ST2QKZ4FKHJ4DCRJ9DAFQ938CB82XADQstx")]

/-- A well-formed block-commit payload (32-byte buffer). -/
def blockCommitFields : List (String × ClarityValue) :=
  [("event", ClarityValue.strAscii "block-commit"),
   ("block-commit", ClarityValue.buff (List.replicate 32 7))]

/-- A committed contract event of the governing contract carrying the
deposit-stx payload, inside a NewBlock envelope. -/
def c1Block : NewBlock :=
  { block_height := 9
    burn_block_time := 0
    index_block_hash := 3
    parent_index_block_hash := 2
    events := [{ txid := 1, event_index := 0, committed := true,
                 event_type := TxEventType.contractEvent,
                 contract_event := some
                   { contract_identifier := "ST000000000000000000002AMW42H.subnets"
                     topic := "print"
                     value := depositStxTuple } }] }

end Events

namespace Mempool

/-- A row of the mempool table as the candidate queries see it: joined
with its fee_estimates entry (fee_rate, none when no estimate is stored);
the last_known nonce columns are the schema-2 additions; sponsored records
tx.auth.is_sponsored(). -/
structure MemPoolRow where
  txid : Nat
  origin_address : Nat
  origin_nonce : Nat
  sponsor_address : Nat
  sponsor_nonce : Nat
  tx_fee : Nat
  length : Nat
  consensus_hash : Nat
  block_header_hash : Nat
  height : Nat
  accept_time : Nat
  last_known_origin_nonce : Option Nat
  last_known_sponsor_nonce : Option Nat
  fee_rate : Option Nat
  sponsored : Bool
  deriving DecidableEq, Repr

/-- MemPoolDropReason from mempool.rs. -/
inductive MemPoolDropReason where
  | REPLACE_ACROSS_FORK
  | REPLACE_BY_FEE
  | STALE_COLLECT
  | TOO_EXPENSIVE
  deriving DecidableEq, Repr

/-- The rejection try_add_tx can produce. -/
inductive MemPoolRejection where
  | ConflictingNonceInMempool
  deriving DecidableEq, Repr

/-- get_tx_metadata_by_address: first row matching the address and nonce
in the origin slot (is_origin) or the sponsor slot. -/
def getTxMetadataByAddress (rows : List MemPoolRow) (isOrigin : Bool)
    (addr nonce : Nat) : Option MemPoolRow :=
  rows.find? (fun r =>
    if isOrigin then r.origin_address == addr && r.origin_nonce == nonce
    else r.sponsor_address == addr && r.sponsor_nonce == nonce)

/-- are_blocks_in_same_fork: equality short-circuit, then two
get_ancestor_block_height probes of the chainstate index (abstracted by
ancestorHeight); only the (None, None) outcome means different forks. -/
def areBlocksInSameFork (ancestorHeight : Nat × Nat → Nat × Nat → Option Nat)
    (first second : Nat × Nat) : Bool :=
  if second = first then true
  else (ancestorHeight second first).isSome || (ancestorHeight first second).isSome

/-- The row written by the INSERT OR REPLACE of try_add_tx: the
last_known nonce columns are not in the column list (NULL), and the fee
side table entry of a replaced row is gone by cascading delete. -/
def newMemPoolRow (txid origin_address origin_nonce sponsor_address sponsor_nonce
    tx_fee length consensus_hash block_header_hash height accept_time : Nat)
    (sponsored : Bool) : MemPoolRow :=
  { txid := txid, origin_address := origin_address, origin_nonce := origin_nonce,
    sponsor_address := sponsor_address, sponsor_nonce := sponsor_nonce,
    tx_fee := tx_fee, length := length, consensus_hash := consensus_hash,
    block_header_hash := block_header_hash, height := height,
    accept_time := accept_time, last_known_origin_nonce := none,
    last_known_sponsor_nonce := none, fee_rate := none, sponsored := sponsored }

/-- INSERT OR REPLACE: every row conflicting with the new row on the txid
primary key or on one of the two UNIQUE (address, nonce) constraints is
deleted, then the new row is inserted. -/
def replacedRows (rows : List MemPoolRow)
    (txid origin_address origin_nonce sponsor_address sponsor_nonce : Nat) :
    List MemPoolRow :=
  rows.filter (fun r =>
    !(r.txid == txid ||
      (r.origin_address == origin_address && r.origin_nonce == origin_nonce) ||
      (r.sponsor_address == sponsor_address && r.sponsor_nonce == sponsor_nonce)))

/-- MemPoolDB::try_add_tx.  Returns the new table and the observer
notification (dropped txid, reason), or the rejection. -/
def tryAddTx (ancestorHeight : Nat × Nat → Nat × Nat → Option Nat)
    (rows : List MemPoolRow)
    (consensus_hash block_header_hash txid tx_fee height : Nat)
    (origin_address origin_nonce sponsor_address sponsor_nonce : Nat)
    (length accept_time : Nat) (sponsored : Bool) :
    Except MemPoolRejection (List MemPoolRow × Option (Nat × MemPoolDropReason)) :=
  let prior :=
    match getTxMetadataByAddress rows true origin_address origin_nonce with
    | some p => some p
    | none => getTxMetadataByAddress rows false sponsor_address sponsor_nonce
  let inserted :=
    replacedRows rows txid origin_address origin_nonce sponsor_address sponsor_nonce
      ++ [newMemPoolRow txid origin_address origin_nonce sponsor_address
            sponsor_nonce tx_fee length consensus_hash block_header_hash height
            accept_time sponsored]
  match prior with
  | none => Except.ok (inserted, none)
  | some p =>
    if p.tx_fee < tx_fee then
      Except.ok (inserted, some (p.txid, MemPoolDropReason.REPLACE_BY_FEE))
    else if areBlocksInSameFork ancestorHeight
        (p.consensus_hash, p.block_header_hash)
        (consensus_hash, block_header_hash) = false then
      Except.ok (inserted, some (p.txid, MemPoolDropReason.REPLACE_ACROSS_FORK))
    else Except.error MemPoolRejection.ConflictingNonceInMempool

/-- The outcome of get_next_tx_to_consider. -/
inductive ConsiderTransactionResult where
  | noTransactions
  | updateNonces (addrs : List Nat)
  | consider (row : MemPoolRow) (update_estimate : Bool)
  deriving DecidableEq, Repr

/-- The readiness condition of both candidate queries: the nonces equal
the last known ones, or either last known column is NULL. -/
def matchesNonces (r : MemPoolRow) : Bool :=
  (r.last_known_origin_nonce == some r.origin_nonce &&
    r.last_known_sponsor_nonce == some r.sponsor_nonce) ||
  r.last_known_origin_nonce == none || r.last_known_sponsor_nonce == none

/-- One step of the scan for the row with the maximal key. -/
def maxStep (key : MemPoolRow → Nat) (acc : Option MemPoolRow) (r : MemPoolRow) :
    Option MemPoolRow :=
  match acc with
  | none => some r
  | some m => if key m < key r then some r else some m

/-- ORDER BY key DESC LIMIT 1 over a list: the first row carrying the
maximal key (the SQL leaves ties unordered; the model keeps the first). -/
def argmaxBy (key : MemPoolRow → Nat) (rows : List MemPoolRow) : Option MemPoolRow :=
  rows.foldl (maxStep key) none

/-- get_next_tx_to_consider_no_estimate: ready rows with NULL fee_rate,
highest tx_fee first; the flag is update_estimate (true). -/
def getNextTxNoEstimate (rows : List MemPoolRow) : Option (MemPoolRow × Bool) :=
  (argmaxBy (fun r => r.tx_fee)
    (rows.filter (fun r => matchesNonces r && r.fee_rate.isNone))).map
    (fun r => (r, true))

/-- get_next_tx_to_consider_with_estimate: ready rows with a stored
fee_rate, highest fee_rate first; update_estimate is false. -/
def getNextTxWithEstimate (rows : List MemPoolRow) : Option (MemPoolRow × Bool) :=
  (argmaxBy (fun r => r.fee_rate.getD 0)
    (rows.filter (fun r => matchesNonces r && r.fee_rate.isSome))).map
    (fun r => (r, false))

/-- The candidate chosen for this iteration: query the branch selected by
the caller and fall back to the other branch. -/
def nextCandidate (rows : List MemPoolRow) (startWithNoEstimate : Bool) :
    Option (MemPoolRow × Bool) :=
  if startWithNoEstimate then
    match getNextTxNoEstimate rows with
    | some c => some c
    | none => getNextTxWithEstimate rows
  else
    match getNextTxWithEstimate rows with
    | some c => some c
    | none => getNextTxNoEstimate rows

/-- The addresses whose last known nonce the chosen candidate is missing:
origin first, then sponsor. -/
def nonceNeeds (r : MemPoolRow) : List Nat :=
  (if r.last_known_origin_nonce = none then [r.origin_address] else []) ++
  (if r.last_known_sponsor_nonce = none then [r.sponsor_address] else [])

/-- get_next_tx_to_consider: pick the candidate, then classify: a NULL
last known nonce turns it into an UpdateNonces request (origin address
first, sponsor second), otherwise it is offered for consideration. -/
def getNextTxToConsider (rows : List MemPoolRow) (startWithNoEstimate : Bool) :
    ConsiderTransactionResult :=
  match nextCandidate rows startWithNoEstimate with
  | none => ConsiderTransactionResult.noTransactions
  | some (r, upd) =>
    if (nonceNeeds r).isEmpty then ConsiderTransactionResult.consider r upd
    else ConsiderTransactionResult.updateNonces (nonceNeeds r)

/-- update_last_known_nonces: set the origin column of the rows whose
origin is the address and the sponsor column of the rows whose sponsor is
the address (two UPDATE statements). -/
def updateLastKnownNonces (rows : List MemPoolRow) (addr nonce : Nat) :
    List MemPoolRow :=
  rows.map (fun r =>
    let r1 := if r.origin_address = addr
      then { r with last_known_origin_nonce := some nonce } else r
    if r1.sponsor_address = addr
      then { r1 with last_known_sponsor_nonce := some nonce } else r1)

/-- bump_last_known_nonces: increment the non NULL last known nonces of
the address, in the origin column and in the sponsor column (two UPDATE
statements with an IS NOT NULL guard). -/
def bumpLastKnownNonces (rows : List MemPoolRow) (addr : Nat) : List MemPoolRow :=
  rows.map (fun r =>
    let r1 := if r.origin_address = addr ∧ r.last_known_origin_nonce.isSome
      then { r with last_known_origin_nonce :=
               r.last_known_origin_nonce.map (fun v => v + 1) }
      else r
    if r1.sponsor_address = addr ∧ r1.last_known_sponsor_nonce.isSome
      then { r1 with last_known_sponsor_nonce :=
               r1.last_known_sponsor_nonce.map (fun v => v + 1) }
      else r1)

/-- The UpdateNonces branch: refresh each listed address from the
chainstate nonce view, skipping a repetition of the address just
refreshed (sponsor equal to origin for a non sponsored row). -/
def processUpdateNonces (chainNonce : Nat → Nat) :
    List MemPoolRow → List Nat → Option Nat → List MemPoolRow
  | rows, [], _ => rows
  | rows, a :: rest, lastAddr =>
    if lastAddr = some a then processUpdateNonces chainNonce rows rest lastAddr
    else processUpdateNonces chainNonce
      (updateLastKnownNonces rows a (chainNonce a)) rest (some a)

/-- MemPoolWalkSettings from mempool.rs. -/
structure MemPoolWalkSettings where
  min_tx_fee : Nat
  max_walk_time_ms : Nat
  consider_no_estimate_tx_prob : Nat
  deriving DecidableEq, Repr

/-- The branch choice at the top of a loop iteration: reuse the remembered
choice after a nonce refresh, otherwise sample the uniform [0, 100)
stream against consider_no_estimate_tx_prob. -/
def startChoice (remember : Option Bool) (rng : List Nat) (prob : Nat) : Bool :=
  match remember with
  | some b => b
  | none => rng.headD 0 < prob

/-- The sampler stream after the branch choice: one sample is consumed
only when no remembered choice was reused. -/
def rngAfterChoice (remember : Option Bool) (rng : List Nat) : List Nat :=
  match remember with
  | some _ => rng
  | none => rng.tail

/-- One pass of MemPoolDB::iterate_candidates, with the ambient inputs
explicit: elapsed is the stream of wall-clock readings taken at the top of
each iteration (the pass also ends when it runs out), rng the stream of
sampler draws, chainNonce the chainstate account-nonce view (held fixed:
the claims assume no external writes during the pass), and todo the visit
callback (its Bool result is the continue signal).  Returns the candidates
passed to todo, in order, and the final table; total_considered is the
length of the first component. -/
def iterateLoop (chainNonce : Nat → Nat) (todo : MemPoolRow → Bool → Bool)
    (settings : MemPoolWalkSettings) :
    List Nat → List Nat → Option Bool → List MemPoolRow →
    List MemPoolRow × List MemPoolRow
  | [], _, _, rows => ([], rows)
  | e :: es, rng, remember, rows =>
    if settings.max_walk_time_ms < e then ([], rows)
    else
      match getNextTxToConsider rows
          (startChoice remember rng settings.consider_no_estimate_tx_prob) with
      | ConsiderTransactionResult.noTransactions => ([], rows)
      | ConsiderTransactionResult.updateNonces addrs =>
        iterateLoop chainNonce todo settings es (rngAfterChoice remember rng)
          (some (startChoice remember rng settings.consider_no_estimate_tx_prob))
          (processUpdateNonces chainNonce rows addrs none)
      | ConsiderTransactionResult.consider r upd =>
        if todo r upd then
          let rows2 :=
            if r.sponsored then
              bumpLastKnownNonces (bumpLastKnownNonces rows r.origin_address)
                r.sponsor_address
            else bumpLastKnownNonces rows r.origin_address
          let rest := iterateLoop chainNonce todo settings es
            (rngAfterChoice remember rng) none rows2
          (r :: rest.1, rest.2)
        else ([r], rows)

/-- MemPoolDB::iterate_candidates: run the pass from fresh streams. -/
def iterateCandidates (chainNonce : Nat → Nat) (todo : MemPoolRow → Bool → Bool)
    (settings : MemPoolWalkSettings) (elapsed rng : List Nat)
    (rows : List MemPoolRow) : List MemPoolRow × List MemPoolRow :=
  iterateLoop chainNonce todo settings elapsed rng none rows

/-- The visit record of a pass: origin address and origin nonce of each
candidate passed to the visit callback, in order. -/
def visitPairs (result : List MemPoolRow × List MemPoolRow) : List (Nat × Nat) :=
  result.1.map (fun r => (r.origin_address, r.origin_nonce))

/-- The last known nonce columns agree with one per-address table f:
every row carries f of its origin in the origin column and f of its
sponsor in the sponsor column.  The all-NULL state a fresh pass starts
from (after reset_last_known_nonces) satisfies this with f constantly
none, and the walk preserves it. -/
def addrState (f : Nat → Option Nat) (rows : List MemPoolRow) : Prop :=
  ∀ r ∈ rows, r.last_known_origin_nonce = f r.origin_address ∧
    r.last_known_sponsor_nonce = f r.sponsor_address

/-- The per-address table after update_last_known_nonces. -/
def updateF (f : Nat → Option Nat) (addr nonce : Nat) : Nat → Option Nat :=
  fun x => if x = addr then some nonce else f x

/-- The per-address table after bump_last_known_nonces. -/
def bumpF (f : Nat → Option Nat) (addr : Nat) : Nat → Option Nat :=
  fun x => if x = addr then (f x).map (fun v => v + 1) else f x

/-
  Concrete mempool data for witnesses and counterexamples.
-/

/-- A mempool row with the given txid, (origin, nonce) slot, fee and tip,
no estimate, NULL last known nonces, not sponsored (sponsor slot mirrors
the origin slot, as from_tx does for non sponsored transactions). -/
def mkRow (txid addr nonce fee ch bhh : Nat) : MemPoolRow :=
  { txid := txid, origin_address := addr, origin_nonce := nonce,
    sponsor_address := addr, sponsor_nonce := nonce, tx_fee := fee,
    length := 180, consensus_hash := ch, block_header_hash := bhh,
    height := 4, accept_time := 0, last_known_origin_nonce := none,
    last_known_sponsor_nonce := none, fee_rate := none, sponsored := false }

/-- C6 table: two transactions of origin 7 at nonces 5 and 6. -/
def c6Rows : List MemPoolRow := [mkRow 21 7 5 100 1 1, mkRow 22 7 6 90 1 1]

/-- C6 chainstate view: account 7 is at nonce 5. -/
def c6ChainNonce : Nat → Nat := fun _ => 5

/-- C7 witness table: one prior row in slot (origin 1, nonce 7). -/
def c7Rows : List MemPoolRow := [mkRow 5 1 7 100 1 1]

/-- C7: a chainstate index with no ancestry at all (every pair of distinct
blocks is in different forks). -/
def c7NoAncestry : Nat × Nat → Nat × Nat → Option Nat := fun _ _ => none

/-- C10 settings pair: identical but for min_tx_fee. -/
def c10SettingsA : MemPoolWalkSettings :=
  { min_tx_fee := 0, max_walk_time_ms := 1000, consider_no_estimate_tx_prob := 25 }

/-- C10 settings with a different min_tx_fee. -/
def c10SettingsB : MemPoolWalkSettings :=
  { min_tx_fee := 500, max_walk_time_ms := 1000, consider_no_estimate_tx_prob := 25 }

/-- Clock readings for the concrete pass: eight iterations inside the
budget. -/
def c6Elapsed : List Nat := [0, 0, 0, 0, 0, 0, 0, 0]

/-- Sampler draws for the concrete pass. -/
def c6Rng : List Nat := [50, 50, 50, 50, 50, 50, 50, 50]

end Mempool

/-
  ================================================================
  Theorems.  Everything above is definitions; everything below is
  lemmas and the per-claim theorems, witnesses and counterexamples.
  ================================================================
-/

namespace Indexer

/- Helper lemmas about the tip-selection order. -/

theorem keyLt_irrefl (a : HeaderRow) : ¬ keyLt a a := by
  unfold keyLt; omega

theorem keyLt_resolve {m a r : HeaderRow} (h1 : ¬ keyLt m a) (h2 : keyLt r a) :
    keyLt r m := by
  unfold keyLt at h1 h2 ⊢; omega

theorem keyLt_asymm {a b : HeaderRow} (h : keyLt a b) : ¬ keyLt b a := by
  unfold keyLt at h ⊢; omega

theorem chooseTip_spec (acc : Option HeaderRow) (a : HeaderRow) :
    ∃ m, chooseTip acc a = some m ∧ (m = a ∨ acc = some m) ∧ ¬ keyLt m a ∧
      (∀ p, acc = some p → ¬ keyLt m p) := by
  cases acc with
  | none =>
    exact ⟨a, rfl, Or.inl rfl, keyLt_irrefl a, fun p hp => by cases hp⟩
  | some p =>
    by_cases h : keyLt p a
    · refine ⟨a, by simp [chooseTip, h], Or.inl rfl, keyLt_irrefl a, ?_⟩
      intro q hq
      cases hq
      exact keyLt_asymm h
    · refine ⟨p, by simp [chooseTip, h], Or.inr rfl, h, ?_⟩
      intro q hq
      cases hq
      exact keyLt_irrefl p

theorem foldl_chooseTip_spec (l : List HeaderRow) :
    ∀ (acc : Option HeaderRow) (r : HeaderRow), l.foldl chooseTip acc = some r →
      (acc = some r ∨ r ∈ l) ∧ (∀ x ∈ l, ¬ keyLt r x) ∧
      (∀ m, acc = some m → ¬ keyLt r m) := by
  induction l with
  | nil =>
    intro acc r h
    have hr : acc = some r := h
    refine ⟨Or.inl hr, by simp, ?_⟩
    intro m hm
    rw [hr] at hm
    cases hm
    exact keyLt_irrefl r
  | cons a l ih =>
    intro acc r h
    obtain ⟨m, hm, hmem, hma, hmacc⟩ := chooseTip_spec acc a
    have h2 : (a :: l).foldl chooseTip acc = l.foldl chooseTip (chooseTip acc a) := rfl
    rw [h2, hm] at h
    obtain ⟨ih1, ih2, ih3⟩ := ih (some m) r h
    have hrm : ¬ keyLt r m := ih3 m rfl
    have hra : ¬ keyLt r a := fun hlt => hrm (keyLt_resolve hma hlt)
    refine ⟨?_, ?_, ?_⟩
    · rcases ih1 with h1 | h1
      · cases h1
        rcases hmem with h3 | h3
        · exact Or.inr (h3 ▸ List.mem_cons_self _ _)
        · exact Or.inl h3
      · exact Or.inr (List.mem_cons_of_mem _ h1)
    · intro x hx
      rcases List.mem_cons.mp hx with h3 | h3
      · exact h3 ▸ hra
      · exact ih2 x h3
    · intro q hq
      intro hlt
      exact hrm (keyLt_resolve (hmacc q hq) hlt)

theorem getCanonicalChainTip_mem {st : HeaderStore} {r : HeaderRow}
    (h : getCanonicalChainTip st = some r) : r ∈ st := by
  rcases (foldl_chooseTip_spec st none r h).1 with h1 | h1
  · cases h1
  · exact h1

theorem getCanonicalChainTip_max {st : HeaderStore} {r : HeaderRow}
    (h : getCanonicalChainTip st = some r) : ∀ x ∈ st, ¬ keyLt r x :=
  (foldl_chooseTip_spec st none r h).2.1

/- Helper lemmas about findHeader. -/

theorem findHeader_hash {st : HeaderStore} {c : Nat} {r : HeaderRow}
    (h : findHeader st c = some r) : r.header_hash = c := by
  have := List.find?_some h
  simpa using this

theorem findHeader_mem {st : HeaderStore} {c : Nat} {r : HeaderRow}
    (h : findHeader st c = some r) : r ∈ st :=
  List.mem_of_find?_eq_some h

theorem findHeader_eq_none {st : HeaderStore} {c : Nat} :
    findHeader st c = none ↔ ∀ r ∈ st, r.header_hash ≠ c := by
  unfold findHeader
  rw [List.find?_eq_none]
  simp

theorem findHeader_append (st l : HeaderStore) (h : Nat) :
    findHeader (st ++ l) h = (findHeader st h).or (findHeader l h) := by
  unfold findHeader
  exact List.find?_append

/- The comparison made by push_block agrees with the strict header order. -/

theorem compareHeaders_pos_iff (tip : HeaderRow) (hdr : BurnHeader) :
    compareHeaders (rowIPC tip) hdr > 0 ↔ headerGt hdr tip := by
  unfold compareHeaders rowIPC headerGt
  dsimp only
  split_ifs <;> omega

theorem insertHeader_of_fresh {st : HeaderStore} {hdr : BurnHeader}
    (hfresh : st.any (fun r => r.header_hash == hdr.header_hash) = false) (b : Bool) :
    insertHeader st hdr b = some (st ++ [rowOfHeader hdr b]) := by
  unfold insertHeader
  rw [hfresh]
  simp

/-- Claim C2: on a delivery while a canonical tip T exists, push_block
inserts the new row canonical with no reorg when the parent of the new
header equals the hash of T; inserts it canonical and runs process_reorg
when the new header strictly exceeds T in the (height, hash) order; and
otherwise inserts it non-canonical with no reorg. -/
theorem c2_push_block_decision (fuel : Nat) (st : HeaderStore) (hdr : BurnHeader)
    (tip : HeaderRow) (htip : getCanonicalChainTip st = some tip)
    (hfresh : st.any (fun r => r.header_hash == hdr.header_hash) = false) :
    (hdr.parent_header_hash = tip.header_hash →
      pushDecision st hdr = (true, false) ∧
      pushBlock fuel st hdr = some (st ++ [rowOfHeader hdr true])) ∧
    (hdr.parent_header_hash ≠ tip.header_hash → headerGt hdr tip →
      pushDecision st hdr = (true, true) ∧
      pushBlock fuel st hdr =
        (processReorg fuel (st ++ [rowOfHeader hdr true]) hdr (rowIPC tip)).map Prod.fst) ∧
    (hdr.parent_header_hash ≠ tip.header_hash → ¬ headerGt hdr tip →
      pushDecision st hdr = (false, false) ∧
      pushBlock fuel st hdr = some (st ++ [rowOfHeader hdr false])) := by
  refine ⟨?_, ?_, ?_⟩
  · intro hpar
    have hdec : pushDecision st hdr = (true, false) := by
      unfold pushDecision
      rw [htip]
      simp [hpar]
    refine ⟨hdec, ?_⟩
    unfold pushBlock
    rw [hdec, insertHeader_of_fresh hfresh]
    simp
  · intro hpar hgt
    have hdec : pushDecision st hdr = (true, true) := by
      unfold pushDecision
      rw [htip]
      simp only [if_neg hpar, if_pos ((compareHeaders_pos_iff tip hdr).mpr hgt)]
    refine ⟨hdec, ?_⟩
    unfold pushBlock
    rw [hdec, insertHeader_of_fresh hfresh, htip]
    simp
  · intro hpar hgt
    have hdec : pushDecision st hdr = (false, false) := by
      unfold pushDecision
      rw [htip]
      simp only [if_neg hpar,
        if_neg (fun hpos => hgt ((compareHeaders_pos_iff tip hdr).mp hpos))]
    refine ⟨hdec, ?_⟩
    unfold pushBlock
    rw [hdec, insertHeader_of_fresh hfresh]
    simp

/-- Witness for C2 at a concrete input: a fast-path append. -/
theorem c2_witness :
    pushDecision c2wStore c2wHdr = (true, false) ∧
    pushBlock 10 c2wStore c2wHdr = some (c2wStore ++ [rowOfHeader c2wHdr true]) :=
  (c2_push_block_decision 10 c2wStore c2wHdr ⟨1, 10, 0, 0, true⟩
    (by decide) (by decide)).1 (by decide)

/-- Claim C3 (amended): get_canonical_chain_tip returns the row whose
(height, header_hash) pair is the lexicographic maximum over ALL rows of
the table; the SQL of the query carries no is_canonical filter.  The
frozen claim (maximum over canonical rows only, scanning only canonical
rows) is refuted on a reachable store by c3_counterexample. -/
theorem c3_canonical_tip_max_over_all_rows (st : HeaderStore) (r : HeaderRow)
    (h : getCanonicalChainTip st = some r) :
    r ∈ st ∧ ∀ x ∈ st, ¬ keyLt r x :=
  ⟨getCanonicalChainTip_mem h, getCanonicalChainTip_max h⟩

/-- Witness for C3 at a concrete input: the reachable store c3State. -/
theorem c3_witness :
    getCanonicalChainTip c3State = some c3TipRow ∧
    (c3TipRow ∈ c3State ∧ ∀ x ∈ c3State, ¬ keyLt c3TipRow x) :=
  ⟨by decide, c3_canonical_tip_max_over_all_rows c3State c3TipRow (by decide)⟩

/-- Counterexample to C3 as frozen: c3State is reachable (five deliveries
from the empty store, each returning Ok), yet the tip query returns a row
whose is_canonical flag is false, and its result differs from the
lexicographic maximum over the canonical rows. -/
theorem c3_counterexample :
    c3Trace = some c3State ∧
    getCanonicalChainTip c3State = some c3TipRow ∧
    c3TipRow.is_canonical = false ∧
    canonicalTipSpec c3State = some ⟨0, 2, 1, 0, true⟩ ∧
    getCanonicalChainTip c3State ≠ canonicalTipSpec c3State := by
  decide

/-- Claim C5 (amended): a delivery whose parent hash is not present in the
store is accepted as a non-canonical side-branch row exactly when it does
not strictly exceed the current canonical tip in the (height, hash) order;
when it does exceed the tip, push_block does not return Ok: the reorg
up-walk immediately fails on the missing parent row.  The frozen claim
(every unknown-parent delivery is accepted) is refuted by
c5_counterexample. -/
theorem c5_unknown_parent_cases (fuel : Nat) (st : HeaderStore) (hdr : BurnHeader)
    (tip : HeaderRow)
    (hparent : findHeader st hdr.parent_header_hash = none)
    (htip : getCanonicalChainTip st = some tip)
    (hfresh : st.any (fun r => r.header_hash == hdr.header_hash) = false)
    (hself : hdr.parent_header_hash ≠ hdr.header_hash) :
    (¬ headerGt hdr tip →
      pushBlock fuel st hdr = some (st ++ [rowOfHeader hdr false]) ∧
      (rowOfHeader hdr false).is_canonical = false) ∧
    (headerGt hdr tip → pushBlock fuel st hdr = none) := by
  have htipmem : tip ∈ st := getCanonicalChainTip_mem htip
  have hpar : hdr.parent_header_hash ≠ tip.header_hash := by
    intro he
    exact (findHeader_eq_none.mp hparent tip htipmem) he.symm
  constructor
  · intro hgt
    have hdec : pushDecision st hdr = (false, false) := by
      unfold pushDecision
      rw [htip]
      simp only [if_neg hpar,
        if_neg (fun hpos => hgt ((compareHeaders_pos_iff tip hdr).mp hpos))]
    constructor
    · unfold pushBlock
      rw [hdec, insertHeader_of_fresh hfresh]
      simp
    · rfl
  · intro hgt
    have hdec : pushDecision st hdr = (true, true) := by
      unfold pushDecision
      rw [htip]
      simp only [if_neg hpar, if_pos ((compareHeaders_pos_iff tip hdr).mpr hgt)]
    have hupnone : ∀ f : Nat,
        reorgUpWalk f (st ++ [rowOfHeader hdr true]) hdr.parent_header_hash = none := by
      intro f
      cases f with
      | zero => rfl
      | succ n =>
        have hfind : findHeader (st ++ [rowOfHeader hdr true]) hdr.parent_header_hash
            = none := by
          rw [findHeader_append, hparent]
          have hne : hdr.header_hash ≠ hdr.parent_header_hash := fun he => hself he.symm
          unfold findHeader rowOfHeader
          simp only [List.find?, Option.none_or]
          rw [beq_eq_false_iff_ne.mpr hne]
        simp only [reorgUpWalk, hfind]
    unfold pushBlock
    rw [hdec, insertHeader_of_fresh hfresh, htip]
    dsimp only
    simp only [processReorg, hupnone]
    rfl

/-- Witness for C5 at a concrete input: a low unknown-parent delivery is
stored as a non-canonical side-branch row. -/
theorem c5_witness :
    pushBlock 10 c5Store c5Small = some (c5Store ++ [rowOfHeader c5Small false]) ∧
    (rowOfHeader c5Small false).is_canonical = false :=
  (c5_unknown_parent_cases 10 c5Store c5Small ⟨1, 10, 0, 0, true⟩
    (by decide) (by decide) (by decide) (by decide)).1 (by decide)

/-- Counterexample to C5 as frozen: a delivery with an unknown parent
whose (height, hash) exceeds the canonical tip makes push_block fail (the
reorg walk panics on the missing parent) instead of returning Ok. -/
theorem c5_counterexample :
    findHeader c5Store c5Big.parent_header_hash = none ∧
    pushBlock 10 c5Store c5Big = none := by
  decide

/- Machinery for reorg idempotence: the down-walk only clears flags, and
clearing is idempotent and order-insensitive. -/

theorem unsetMany_nil (st : HeaderStore) : unsetMany [] st = st := by
  unfold unsetMany
  simp

theorem setCanonical_false_eq_unsetMany (st : HeaderStore) (c : Nat) :
    setCanonical st c false = unsetMany [c] st := by
  unfold setCanonical unsetMany
  apply List.map_congr_left
  intro r _
  by_cases h : r.header_hash = c
  · simp [h]
  · simp [h]

theorem unsetMany_unsetMany (hs ks : List Nat) (st : HeaderStore) :
    unsetMany hs (unsetMany ks st) = unsetMany (ks ++ hs) st := by
  unfold unsetMany
  rw [List.map_map]
  apply List.map_congr_left
  intro r _
  by_cases h1 : r.header_hash ∈ ks <;> by_cases h2 : r.header_hash ∈ hs <;>
    simp [Function.comp, h1, h2]

theorem findHeader_unsetMany (hs : List Nat) (st : HeaderStore) (h : Nat) :
    findHeader (unsetMany hs st) h =
      (findHeader st h).map
        (fun r => if r.header_hash ∈ hs then { r with is_canonical := false } else r) := by
  unfold findHeader unsetMany
  rw [List.find?_map]
  have hp : ((fun r : HeaderRow => r.header_hash == h) ∘
      (fun r : HeaderRow =>
        if r.header_hash ∈ hs then { r with is_canonical := false } else r))
      = fun r : HeaderRow => r.header_hash == h := by
    funext r
    by_cases hm : r.header_hash ∈ hs <;> simp [Function.comp, hm]
  rw [hp]

theorem allFalseAt_setCanonical (st : HeaderStore) (c : Nat) :
    allFalseAt (setCanonical st c false) c := by
  intro r hr hhash
  unfold setCanonical at hr
  obtain ⟨x, hx, rfl⟩ := List.mem_map.mp hr
  by_cases h : x.header_hash = c
  · simp [h]
  · simp only [if_neg h] at hhash ⊢
    exact absurd hhash h

theorem allFalseAt_unsetMany (hs : List Nat) {st : HeaderStore} {c : Nat}
    (hst : allFalseAt st c) : allFalseAt (unsetMany hs st) c := by
  intro r hr hhash
  unfold unsetMany at hr
  obtain ⟨x, hx, rfl⟩ := List.mem_map.mp hr
  by_cases h : x.header_hash ∈ hs
  · simp [h]
  · simp only [if_neg h] at hhash ⊢
    exact hst x hx hhash

theorem setCanonical_eq_of_allFalse {st : HeaderStore} {c : Nat}
    (h : allFalseAt st c) : setCanonical st c false = st := by
  unfold setCanonical
  have hid : ∀ r ∈ st,
      (if r.header_hash = c then { r with is_canonical := false } else r) = r := by
    intro r hr
    by_cases hc : r.header_hash = c
    · have hflag := h r hr hc
      cases r
      simp only at hflag
      simp [hc, hflag]
    · simp [hc]
  rw [List.map_congr_left hid]
  simp

theorem reorgDownWalk_structure (fuel : Nat) :
    ∀ (st : HeaderStore) (c g : Nat) (st' : HeaderStore),
      reorgDownWalk fuel st c g = some st' →
      ∃ hs : List Nat, st' = unsetMany hs st ∧ g ∉ hs := by
  induction fuel with
  | zero =>
    intro st c g st' h
    simp [reorgDownWalk] at h
  | succ n ih =>
    intro st c g st' h
    simp only [reorgDownWalk] at h
    split at h
    · cases h
    · rename_i row hf
      by_cases hg : row.header_hash = g
      · rw [if_pos hg] at h
        cases h
        exact ⟨[], (unsetMany_nil st).symm, by simp⟩
      · rw [if_neg hg] at h
        obtain ⟨hs, hst, hgn⟩ := ih _ _ _ _ h
        refine ⟨c :: hs, ?_, ?_⟩
        · rw [hst, setCanonical_false_eq_unsetMany, unsetMany_unsetMany]
          rfl
        · have hc : row.header_hash = c := findHeader_hash hf
          intro hmem
          rcases List.mem_cons.mp hmem with h1 | h1
          · exact hg (hc ▸ h1.symm ▸ rfl)
          · exact hgn h1

theorem reorgDownWalk_idempotent (fuel : Nat) :
    ∀ (st : HeaderStore) (c g : Nat) (st' : HeaderStore),
      reorgDownWalk fuel st c g = some st' →
      reorgDownWalk fuel st' c g = some st' := by
  induction fuel with
  | zero =>
    intro st c g st' h
    simp [reorgDownWalk] at h
  | succ n ih =>
    intro st c g st' h
    simp only [reorgDownWalk] at h ⊢
    split at h
    · cases h
    · rename_i row hf
      have hc : row.header_hash = c := findHeader_hash hf
      by_cases hg : row.header_hash = g
      · rw [if_pos hg] at h
        cases h
        rw [hf]
        show (if row.header_hash = g then some st
          else reorgDownWalk n (setCanonical st c false) row.parent_header_hash g) = some st
        rw [if_pos hg]
      · rw [if_neg hg] at h
        obtain ⟨hs, hst, _⟩ := reorgDownWalk_structure n _ _ _ _ h
        have hsc : st' = unsetMany (c :: hs) st := by
          rw [hst, setCanonical_false_eq_unsetMany, unsetMany_unsetMany]
          rfl
        have hffind : findHeader st' c =
            some { row with is_canonical := false } := by
          rw [hsc, findHeader_unsetMany, hf]
          simp [hc]
        have hall : allFalseAt st' c := by
          rw [hst]
          exact allFalseAt_unsetMany hs (allFalseAt_setCanonical st c)
        have hset : setCanonical st' c false = st' := setCanonical_eq_of_allFalse hall
        have h2 := ih _ _ _ _ h
        rw [hffind]
        show (if ({ row with is_canonical := false } : HeaderRow).header_hash = g
            then some st'
            else reorgDownWalk n (setCanonical st' c false)
              ({ row with is_canonical := false } : HeaderRow).parent_header_hash g)
          = some st'
        rw [if_neg (show ¬ ({ row with is_canonical := false } : HeaderRow).header_hash = g
          from hg)]
        show reorgDownWalk n (setCanonical st' c false) row.parent_header_hash g = some st'
        rw [hset]
        exact h2

/-- Claim C4 (amended): process_reorg is idempotent provided the parent of
the new tip is already canonical before the first run: the greatest common
ancestor is then that parent, the second identical run repeats the same
down-walk, and every flag write is a repetition.  Without that proviso a
second run can fail outright, see c4_counterexample. -/
theorem c4_process_reorg_idempotent_of_parent_canonical
    (fuel : Nat) (st st' : HeaderStore) (newTip oldTip : BurnHeader) (h : Nat)
    (p : HeaderRow)
    (hp : findHeader st newTip.parent_header_hash = some p)
    (hpc : p.is_canonical = true)
    (hrun : processReorg fuel st newTip oldTip = some (st', h)) :
    processReorg fuel st' newTip oldTip = some (st', h) := by
  cases fuel with
  | zero => simp [processReorg, reorgUpWalk] at hrun
  | succ n =>
    have hup : reorgUpWalk (n + 1) st newTip.parent_header_hash = some (st, p) := by
      simp only [reorgUpWalk, hp, hpc]
      rfl
    unfold processReorg at hrun
    rw [hup] at hrun
    have hrun2 : (match reorgDownWalk (n + 1) st oldTip.header_hash p.header_hash with
        | none => none
        | some st2 => some (st2, p.height)) = some (st', h) := hrun
    split at hrun2
    · cases hrun2
    · rename_i stq hdown
      have hpair : stq = st' ∧ p.height = h := by simpa using hrun2
      rw [← hpair.1, ← hpair.2]
      obtain ⟨hs, hstx, hgn⟩ := reorgDownWalk_structure (n + 1) _ _ _ _ hdown
      have hfind2 : findHeader stq newTip.parent_header_hash = some p := by
        rw [hstx, findHeader_unsetMany, hp]
        simp [hgn]
      have hup2 : reorgUpWalk (n + 1) stq newTip.parent_header_hash = some (stq, p) := by
        simp only [reorgUpWalk, hfind2, hpc]
        rfl
      have hdown2 := reorgDownWalk_idempotent (n + 1) _ _ _ _ hdown
      unfold processReorg
      rw [hup2]
      show (match reorgDownWalk (n + 1) stq oldTip.header_hash p.header_hash with
        | none => none
        | some st2 => some (st2, p.height)) = some (stq, p.height)
      rw [hdown2]

/-- Witness for C4 at a concrete input: a reorg whose new tip descends
directly from a canonical row; run twice, same result. -/
theorem c4_witness :
    processReorg 5 c4wStore c4wNew c4wOld = some (c4wStoreAfter, 0) ∧
    processReorg 5 c4wStoreAfter c4wNew c4wOld = some (c4wStoreAfter, 0) :=
  ⟨by decide,
   c4_process_reorg_idempotent_of_parent_canonical 5 c4wStore c4wStoreAfter c4wNew c4wOld 0
     ⟨0, 10, 99, 0, true⟩ (by decide) (by decide) (by decide)⟩

/-- Counterexample to C4 as frozen: a reorg pair on which process_reorg
succeeds, yet running it a second time from the resulting store fails (the
second down-walk hunts for the hash of the row the first up-walk made
canonical, overshoots the old greatest common ancestor, and panics on the
missing parent of the root) instead of leaving the store unchanged. -/
theorem c4_counterexample :
    processReorg 10 c4Store c4New c4Old = some (c4StoreAfter, 0) ∧
    processReorg 10 c4StoreAfter c4New c4Old = none := by
  decide

/-- Claim C8 (amended): with a cached last-observed tip, find_chain_reorg
returns the highest height over ALL header rows (the MAX(height) query has
no canonical filter) when the cached hash is still canonical, and the
height of the first canonical ancestor of the cached tip otherwise; on
both Ok paths the cache is refreshed with the current
get_canonical_chain_tip.  The frozen claim (highest canonical height) is
refuted by c8_counterexample. -/
theorem c8_find_chain_reorg_cases (fuel : Nat) (ixs : IndexerState) (last : HeaderRow)
    (hlast : ixs.last_canonical_tip = some last) :
    (isCanonicalQuery ixs.store last.header_hash = some true →
      findChainReorg fuel ixs = some (getHighestHeaderHeight ixs.store,
        { ixs with last_canonical_tip := getCanonicalChainTip ixs.store })) ∧
    (∀ hh : Nat, isCanonicalQuery ixs.store last.header_hash = some false →
      findFirstCanonicalAncestor fuel ixs.store last.header_hash = some hh →
      findChainReorg fuel ixs = some (hh,
        { ixs with last_canonical_tip := getCanonicalChainTip ixs.store })) := by
  constructor
  · intro hcan
    simp only [findChainReorg, hlast, hcan]
    rfl
  · intro hh hcan hanc
    simp only [findChainReorg, hlast, hcan, hanc]
    rfl

/-- Witness for C8 at a concrete input: a cached tip that is no longer
canonical; the call reports the height of its first canonical ancestor. -/
theorem c8_witness :
    findChainReorg 10 c8wState = some (1,
      { c8wState with last_canonical_tip := getCanonicalChainTip c8wState.store }) :=
  (c8_find_chain_reorg_cases 10 c8wState ⟨2, 2, 1, 0, false⟩ (by decide)).2
    1 (by decide) (by decide)

/-- Counterexample to C8 as frozen: a store and cache on which the cached
tip is still canonical, yet the call returns 5, the maximum height over
all rows, while the highest canonical height is 1. -/
theorem c8_counterexample :
    isCanonicalQuery c8State.store 1 = some true ∧
    (findChainReorg 10 c8State).map Prod.fst = some 5 ∧
    highestCanonicalHeightSpec c8State.store = 1 ∧
    (5 : Nat) ≠ 1 := by
  decide

/-- Claim C9 (code_bug): get_header_for_hash runs
SELECT * FROM headers WHERE burn_header_hash = ?1, but the headers schema
defines the column header_hash and no burn_header_hash, so the query
errors and the expect calls panic on every store, even one that contains
the pinned first-burn header; no NotConfigured error is ever produced.
The claim describes the evident intent; the code is the slip. -/
theorem c9_first_block_accessors_always_panic (st : HeaderStore) (h : Nat)
    (r : HeaderRow) (hingested : findHeader st h = some r) :
    getHeaderForHash st h = none ∧ getFirstBlockHeight st h = none := by
  have hq : queryHeaderWhere st "burn_header_hash" h = none := by
    unfold queryHeaderWhere
    rw [if_neg (by decide : ¬ ("burn_header_hash" ∈ headersTableColumns))]
  constructor
  · unfold getHeaderForHash
    rw [hq]
  · unfold getFirstBlockHeight getHeaderForHash
    rw [hq]
    rfl

/-- Witness for C9 at a concrete input: the pinned header with hash 42 is
present in the store, and the accessors still fail. -/
theorem c9_witness :
    getHeaderForHash c9Store 42 = none ∧ getFirstBlockHeight c9Store 42 = none :=
  c9_first_block_accessors_always_panic c9Store 42 ⟨7, 42, 0, 5, true⟩ (by decide)

end Indexer

namespace Events

/-- Claim C1 (amended): the decoder dispatch has exactly one arm: a tuple
with event tag block-commit and a 32-byte buffer yields a BlockCommit
operation, while every other tag of the dispatch table of the claim
(deposit-stx, deposit-ft, deposit-nft, withdraw-ft, withdraw-nft,
withdraw-stx, register-asset) makes try_from_clar_value return an error,
whatever fields the tuple carries.  The frozen claim that these tags
decode to operations is refuted by c1_counterexample. -/
theorem c1_decoder_dispatch (txid event_index in_block : Nat)
    (fields : List (String × ClarityValue)) (tag : String) (bytes : List Nat) :
    (tupleGet fields "event" = some (ClarityValue.strAscii tag) →
      tag ∈ otherOpTags →
      ∃ msg, tryFromClarValue (ClarityValue.tupleVal fields) txid event_index in_block
        = Except.error msg) ∧
    (tupleGet fields "event" = some (ClarityValue.strAscii "block-commit") →
      tupleGet fields "block-commit" = some (ClarityValue.buff bytes) →
      bytes.length = 32 →
      tryFromClarValue (ClarityValue.tupleVal fields) txid event_index in_block
        = Except.ok { txid := txid, event_index := event_index, in_block := in_block,
                      opcode := 0,
                      event := StacksHyperOpType.blockCommit bytes }) := by
  constructor
  · intro hev htag
    have hne : ¬ displayAsciiString tag = "\"block-commit\"" := by
      simp only [otherOpTags] at htag
      fin_cases htag <;> decide
    refine ⟨"Unexpected event string: " ++ displayAsciiString tag, ?_⟩
    simp only [tryFromClarValue, hev]
    rw [if_neg hne]
  · intro hev hbc hlen
    simp only [tryFromClarValue, hev]
    rw [if_pos (by decide : displayAsciiString "block-commit" = "\"block-commit\"")]
    simp only [hbc]
    rw [if_pos hlen]

/-- Witness for C1 at concrete inputs: the deposit-stx payload errors, the
block-commit payload decodes. -/
theorem c1_witness :
    (∃ msg, tryFromClarValue (ClarityValue.tupleVal depositStxFields) 1 0 3
      = Except.error msg) ∧
    tryFromClarValue (ClarityValue.tupleVal blockCommitFields) 1 0 3
      = Except.ok { txid := 1, event_index := 0, in_block := 3, opcode := 0,
                    event := StacksHyperOpType.blockCommit (List.replicate 32 7) } :=
  ⟨(c1_decoder_dispatch 1 0 3 depositStxFields "deposit-stx" []).1 rfl (by decide),
   (c1_decoder_dispatch 1 0 3 blockCommitFields "block-commit"
      (List.replicate 32 7)).2 rfl rfl (by decide)⟩

/-- Counterexample to C1 as frozen: the deposit-stx payload of the spec
table (amount uint, sender principal) makes try_from_clar_value return an
error instead of a DepositStx operation, and the committed contract event
of the governing contract that carries it is dropped from the assembled
block. -/
theorem c1_counterexample :
    tryFromClarValue depositStxTuple 1 0 3
      = Except.error
          ("Unexpected event string: " ++ displayAsciiString "deposit-stx") ∧
    (fromNewBlockEvent "ST000000000000000000002AMW42H.subnets" c1Block).ops = [] := by
  constructor
  · rfl
  · rfl

end Events

namespace Mempool

/- Helper lemmas for the admission decision. -/

theorem priorLookup_slot {rows : List MemPoolRow} {oa onc sa sn : Nat} {p : MemPoolRow}
    (hprior : (match getTxMetadataByAddress rows true oa onc with
      | some q => some q
      | none => getTxMetadataByAddress rows false sa sn) = some p) :
    p ∈ rows ∧
    ((p.origin_address = oa ∧ p.origin_nonce = onc) ∨
     (p.sponsor_address = sa ∧ p.sponsor_nonce = sn)) := by
  cases hl : getTxMetadataByAddress rows true oa onc with
  | some q =>
    rw [hl] at hprior
    cases hprior
    have hp := List.find?_some hl
    simp at hp
    exact ⟨List.mem_of_find?_eq_some hl, Or.inl ⟨hp.1, hp.2⟩⟩
  | none =>
    rw [hl] at hprior
    have hp := List.find?_some hprior
    simp at hp
    exact ⟨List.mem_of_find?_eq_some hprior, Or.inr ⟨hp.1, hp.2⟩⟩

theorem not_mem_replacedRows {rows : List MemPoolRow} {txid oa onc sa sn : Nat}
    {p : MemPoolRow}
    (hslot : (p.origin_address = oa ∧ p.origin_nonce = onc) ∨
      (p.sponsor_address = sa ∧ p.sponsor_nonce = sn)) :
    p ∉ replacedRows rows txid oa onc sa sn := by
  intro hmem
  rw [replacedRows, List.mem_filter] at hmem
  obtain ⟨-, hpred⟩ := hmem
  rcases hslot with ⟨h1, h2⟩ | ⟨h1, h2⟩ <;> simp [h1, h2] at hpred

/-- Claim C7: when a submission finds a prior row in its (address, nonce)
slot, the prior row is replaced when the new fee is strictly greater
(replace-by-fee, observer notified with the prior txid and
REPLACE_BY_FEE) or, failing that, when the prior row tip is not in the
same fork as the submission tip (replace-across-fork); in every other
case try_add_tx fails with ConflictingNonceInMempool and writes nothing. -/
theorem c7_try_add_tx_replacement (anc : Nat × Nat → Nat × Nat → Option Nat)
    (rows : List MemPoolRow)
    (ch bhh txid fee height oa onc sa sn len at1 : Nat) (sp : Bool)
    (p : MemPoolRow)
    (hprior : (match getTxMetadataByAddress rows true oa onc with
      | some q => some q
      | none => getTxMetadataByAddress rows false sa sn) = some p) :
    (p.tx_fee < fee →
      tryAddTx anc rows ch bhh txid fee height oa onc sa sn len at1 sp
        = Except.ok (replacedRows rows txid oa onc sa sn
            ++ [newMemPoolRow txid oa onc sa sn fee len ch bhh height at1 sp],
          some (p.txid, MemPoolDropReason.REPLACE_BY_FEE)) ∧
      p ∉ replacedRows rows txid oa onc sa sn) ∧
    (¬ p.tx_fee < fee →
      areBlocksInSameFork anc (p.consensus_hash, p.block_header_hash) (ch, bhh)
        = false →
      tryAddTx anc rows ch bhh txid fee height oa onc sa sn len at1 sp
        = Except.ok (replacedRows rows txid oa onc sa sn
            ++ [newMemPoolRow txid oa onc sa sn fee len ch bhh height at1 sp],
          some (p.txid, MemPoolDropReason.REPLACE_ACROSS_FORK)) ∧
      p ∉ replacedRows rows txid oa onc sa sn) ∧
    (¬ p.tx_fee < fee →
      areBlocksInSameFork anc (p.consensus_hash, p.block_header_hash) (ch, bhh)
        = true →
      tryAddTx anc rows ch bhh txid fee height oa onc sa sn len at1 sp
        = Except.error MemPoolRejection.ConflictingNonceInMempool) := by
  have hslot := (priorLookup_slot hprior).2
  refine ⟨?_, ?_, ?_⟩
  · intro hfee
    refine ⟨?_, not_mem_replacedRows hslot⟩
    simp only [tryAddTx, hprior]
    rw [if_pos hfee]
  · intro hfee hfork
    refine ⟨?_, not_mem_replacedRows hslot⟩
    simp only [tryAddTx, hprior]
    rw [if_neg hfee, if_pos hfork]
  · intro hfee hfork
    simp only [tryAddTx, hprior]
    rw [if_neg hfee, if_neg (by simp [hfork])]

/-- Witness for C7 at a concrete input: a replace-by-fee of the prior row
in slot (origin 1, nonce 7). -/
theorem c7_witness :
    tryAddTx c7NoAncestry c7Rows 1 1 6 120 4 1 7 1 7 180 0 false
      = Except.ok (replacedRows c7Rows 6 1 7 1 7
          ++ [newMemPoolRow 6 1 7 1 7 120 180 1 1 4 0 false],
        some (5, MemPoolDropReason.REPLACE_BY_FEE)) ∧
    mkRow 5 1 7 100 1 1 ∉ replacedRows c7Rows 6 1 7 1 7 :=
  (c7_try_add_tx_replacement c7NoAncestry c7Rows 1 1 6 120 4 1 7 1 7 180 0 false
    (mkRow 5 1 7 100 1 1) (by decide)).1 (by decide)

/- Selection facts: chosen candidates come from the table and satisfy the
readiness condition. -/

theorem maxStep_foldl_mem (key : MemPoolRow → Nat) (l : List MemPoolRow) :
    ∀ (acc : Option MemPoolRow) (r : MemPoolRow),
      l.foldl (maxStep key) acc = some r → acc = some r ∨ r ∈ l := by
  induction l with
  | nil => intro acc r h; exact Or.inl h
  | cons a l ih =>
    intro acc r h
    have h2 := ih (maxStep key acc a) r h
    rcases h2 with h2 | h2
    · cases acc with
      | none =>
        have h3 : some a = some r := h2
        cases h3
        exact Or.inr (List.mem_cons_self _ _)
      | some m =>
        have h3 : (if key m < key a then some a else some m) = some r := h2
        by_cases hk : key m < key a
        · rw [if_pos hk] at h3
          cases h3
          exact Or.inr (List.mem_cons_self _ _)
        · rw [if_neg hk] at h3
          exact Or.inl h3
    · exact Or.inr (List.mem_cons_of_mem _ h2)

theorem argmaxBy_mem {key : MemPoolRow → Nat} {l : List MemPoolRow} {r : MemPoolRow}
    (h : argmaxBy key l = some r) : r ∈ l := by
  rcases maxStep_foldl_mem key l none r h with h1 | h1
  · cases h1
  · exact h1

theorem getNextTxNoEstimate_spec {rows : List MemPoolRow} {r : MemPoolRow} {u : Bool}
    (h : getNextTxNoEstimate rows = some (r, u)) :
    r ∈ rows ∧ matchesNonces r = true := by
  unfold getNextTxNoEstimate at h
  cases ha : argmaxBy (fun r => r.tx_fee)
      (rows.filter (fun r => matchesNonces r && r.fee_rate.isNone)) with
  | none => rw [ha] at h; cases h
  | some m =>
    rw [ha] at h
    have hmr : m = r := by
      simpa using congrArg (fun o => o.map Prod.fst) h
    subst hmr
    have hm := argmaxBy_mem ha
    rw [List.mem_filter] at hm
    have hmatch : matchesNonces m = true := by
      have h4 := hm.2
      simp only [Bool.and_eq_true] at h4
      exact h4.1
    exact ⟨hm.1, hmatch⟩

theorem getNextTxWithEstimate_spec {rows : List MemPoolRow} {r : MemPoolRow} {u : Bool}
    (h : getNextTxWithEstimate rows = some (r, u)) :
    r ∈ rows ∧ matchesNonces r = true := by
  unfold getNextTxWithEstimate at h
  cases ha : argmaxBy (fun r => r.fee_rate.getD 0)
      (rows.filter (fun r => matchesNonces r && r.fee_rate.isSome)) with
  | none => rw [ha] at h; cases h
  | some m =>
    rw [ha] at h
    have hmr : m = r := by
      simpa using congrArg (fun o => o.map Prod.fst) h
    subst hmr
    have hm := argmaxBy_mem ha
    rw [List.mem_filter] at hm
    have hmatch : matchesNonces m = true := by
      have h4 := hm.2
      simp only [Bool.and_eq_true] at h4
      exact h4.1
    exact ⟨hm.1, hmatch⟩

theorem nextCandidate_spec {rows : List MemPoolRow} {b : Bool} {r : MemPoolRow}
    {u : Bool} (h : nextCandidate rows b = some (r, u)) :
    r ∈ rows ∧ matchesNonces r = true := by
  unfold nextCandidate at h
  cases b with
  | false =>
    rw [if_neg (by simp)] at h
    split at h
    · rename_i c heq
      cases h
      exact getNextTxWithEstimate_spec heq
    · exact getNextTxNoEstimate_spec h
  | true =>
    rw [if_pos rfl] at h
    split at h
    · rename_i c heq
      cases h
      exact getNextTxNoEstimate_spec heq
    · exact getNextTxWithEstimate_spec h

theorem getNextTxToConsider_consider {rows : List MemPoolRow} {b : Bool}
    {r : MemPoolRow} {u : Bool}
    (h : getNextTxToConsider rows b = ConsiderTransactionResult.consider r u) :
    r ∈ rows ∧ r.last_known_origin_nonce = some r.origin_nonce ∧
      r.last_known_sponsor_nonce = some r.sponsor_nonce := by
  unfold getNextTxToConsider at h
  cases hc : nextCandidate rows b with
  | none => rw [hc] at h; cases h
  | some ru =>
    obtain ⟨rr, uu⟩ := ru
    rw [hc] at h
    dsimp only at h
    by_cases hne : (nonceNeeds rr).isEmpty
    · rw [if_pos hne] at h
      cases h
      have hspec := nextCandidate_spec hc
      have h1 : ¬ r.last_known_origin_nonce = none := by
        intro h0
        simp [nonceNeeds, h0] at hne
      have h2 : ¬ r.last_known_sponsor_nonce = none := by
        intro h0
        simp [nonceNeeds, h0] at hne
      have hm := hspec.2
      simp only [matchesNonces, Bool.or_eq_true, Bool.and_eq_true, beq_iff_eq] at hm
      rcases hm with (⟨e1, e2⟩ | h0) | h0
      · exact ⟨hspec.1, e1, e2⟩
      · exact absurd h0 h1
      · exact absurd h0 h2
    · rw [if_neg hne] at h
      cases h

theorem getNextTxToConsider_update {rows : List MemPoolRow} {b : Bool}
    {addrs : List Nat}
    (h : getNextTxToConsider rows b = ConsiderTransactionResult.updateNonces addrs) :
    ∃ r, r ∈ rows ∧ ∀ a ∈ addrs,
      (a = r.origin_address ∧ r.last_known_origin_nonce = none) ∨
      (a = r.sponsor_address ∧ r.last_known_sponsor_nonce = none) := by
  unfold getNextTxToConsider at h
  cases hc : nextCandidate rows b with
  | none => rw [hc] at h; cases h
  | some ru =>
    obtain ⟨rr, uu⟩ := ru
    rw [hc] at h
    dsimp only at h
    by_cases hne : (nonceNeeds rr).isEmpty
    · rw [if_pos hne] at h
      cases h
    · rw [if_neg hne] at h
      cases h
      refine ⟨rr, (nextCandidate_spec hc).1, ?_⟩
      intro a ha
      simp only [nonceNeeds, List.mem_append] at ha
      rcases ha with ha | ha
      · by_cases h0 : rr.last_known_origin_nonce = none
        · left
          refine ⟨?_, h0⟩
          simp only [if_pos h0, List.mem_singleton] at ha
          exact ha
        · simp [h0] at ha
      · by_cases h0 : rr.last_known_sponsor_nonce = none
        · right
          refine ⟨?_, h0⟩
          simp only [if_pos h0, List.mem_singleton] at ha
          exact ha
        · simp [h0] at ha

/- The per-address view of the last known nonce columns. -/

theorem addrState_update {f : Nat → Option Nat} {rows : List MemPoolRow}
    (hf : addrState f rows) (addr nonce : Nat) :
    addrState (updateF f addr nonce) (updateLastKnownNonces rows addr nonce) := by
  intro r2 hr2
  unfold updateLastKnownNonces at hr2
  obtain ⟨r, hr, rfl⟩ := List.mem_map.mp hr2
  obtain ⟨h1, h2⟩ := hf r hr
  unfold updateF
  by_cases ho : r.origin_address = addr <;> by_cases hs : r.sponsor_address = addr <;>
    simp [ho, hs, h1, h2]

theorem addrState_bump {f : Nat → Option Nat} {rows : List MemPoolRow}
    (hf : addrState f rows) (addr : Nat) :
    addrState (bumpF f addr) (bumpLastKnownNonces rows addr) := by
  intro r2 hr2
  unfold bumpLastKnownNonces at hr2
  obtain ⟨r, hr, rfl⟩ := List.mem_map.mp hr2
  obtain ⟨h1, h2⟩ := hf r hr
  unfold bumpF
  by_cases ho : r.origin_address = addr <;> by_cases hs : r.sponsor_address = addr <;>
    cases hfo : f addr <;>
    simp [ho, hs, h1, h2, hfo]

theorem addrState_processUpdate (c : Nat → Nat) :
    ∀ (addrs : List Nat) (rows : List MemPoolRow) (f : Nat → Option Nat)
      (last : Option Nat), addrState f rows →
      (∀ a ∈ addrs, f a = none ∨ f a = some (c a)) →
      ∃ f2, addrState f2 (processUpdateNonces c rows addrs last) ∧
        ∀ x v, f x = some v → f2 x = some v := by
  intro addrs
  induction addrs with
  | nil =>
    intro rows f last hf _
    exact ⟨f, hf, fun x v hv => hv⟩
  | cons a rest ih =>
    intro rows f last hf hpre
    simp only [processUpdateNonces]
    by_cases hl : last = some a
    · rw [if_pos hl]
      exact ih rows f last hf (fun b hb => hpre b (List.mem_cons_of_mem _ hb))
    · rw [if_neg hl]
      have hpre2 : ∀ b2 ∈ rest, updateF f a (c a) b2 = none ∨
          updateF f a (c a) b2 = some (c b2) := by
        intro b2 hb2m
        by_cases hb2 : b2 = a
        · right
          simp only [updateF]
          rw [if_pos hb2, hb2]
        · simp only [updateF]
          rw [if_neg hb2]
          exact hpre b2 (List.mem_cons_of_mem _ hb2m)
      obtain ⟨f2, ha2, hmono⟩ := ih (updateLastKnownNonces rows a (c a))
        (updateF f a (c a)) (some a) (addrState_update hf a (c a)) hpre2
      refine ⟨f2, ha2, ?_⟩
      intro x v hv
      apply hmono
      simp only [updateF]
      by_cases hx : x = a
      · rw [if_pos hx]
        rcases hpre a (List.mem_cons_self _ _) with h0 | h0
        · rw [hx, h0] at hv
          cases hv
        · rw [hx, h0] at hv
          exact hv
      · rw [if_neg hx]
        exact hv

theorem bumpF_some (f : Nat → Option Nat) (addr : Nat) {x v : Nat}
    (hv : f x = some v) : ∃ w, bumpF f addr x = some w ∧ v ≤ w := by
  unfold bumpF
  by_cases hx : x = addr
  · subst hx
    refine ⟨v + 1, ?_, by omega⟩
    rw [if_pos rfl, hv]
    rfl
  · refine ⟨v, ?_, Nat.le_refl v⟩
    rw [if_neg hx]
    exact hv

theorem bumpF_strict (f : Nat → Option Nat) (addr : Nat) {v : Nat}
    (hv : f addr = some v) : bumpF f addr addr = some (v + 1) := by
  unfold bumpF
  rw [if_pos rfl, hv]
  rfl

/-- The per-address view after the post-visit bumps: one bump of the
origin, or that bump followed by a bump of the sponsor. -/
theorem bump_package {f : Nat → Option Nat} {rows : List MemPoolRow}
    (hf : addrState f rows) (r : MemPoolRow)
    (hn : f r.origin_address = some r.origin_nonce) :
    ∃ g, addrState g
        (if r.sponsored = true then
          bumpLastKnownNonces (bumpLastKnownNonces rows r.origin_address)
            r.sponsor_address
         else bumpLastKnownNonces rows r.origin_address) ∧
      (∀ x v, f x = some v → ∃ w, g x = some w ∧ v ≤ w) ∧
      (∃ w, g r.origin_address = some w ∧ r.origin_nonce < w) := by
  by_cases hsp : r.sponsored = true
  · rw [if_pos hsp]
    refine ⟨bumpF (bumpF f r.origin_address) r.sponsor_address,
      addrState_bump (addrState_bump hf r.origin_address) r.sponsor_address,
      ?_, ?_⟩
    · intro x v hv
      obtain ⟨w1, hw1, hle1⟩ := bumpF_some f r.origin_address hv
      obtain ⟨w2, hw2, hle2⟩ := bumpF_some (bumpF f r.origin_address)
        r.sponsor_address hw1
      exact ⟨w2, hw2, Nat.le_trans hle1 hle2⟩
    · have h1 := bumpF_strict f r.origin_address hn
      obtain ⟨w2, hw2, hle2⟩ := bumpF_some (bumpF f r.origin_address)
        r.sponsor_address h1
      exact ⟨w2, hw2, by omega⟩
  · rw [if_neg hsp]
    refine ⟨bumpF f r.origin_address, addrState_bump hf r.origin_address, ?_, ?_⟩
    · intro x v hv
      exact bumpF_some f r.origin_address hv
    · exact ⟨r.origin_nonce + 1, bumpF_strict f r.origin_address hn, by omega⟩

/- Every later visit of an origin stays at or above the current
per-address nonce. -/

theorem iterateLoop_future_visits (c : Nat → Nat) (todo : MemPoolRow → Bool → Bool)
    (s : MemPoolWalkSettings) :
    ∀ (es rng : List Nat) (rem : Option Bool) (rows : List MemPoolRow)
      (f : Nat → Option Nat), addrState f rows →
      ∀ o m, f o = some m →
      ∀ n, (o, n) ∈ visitPairs (iterateLoop c todo s es rng rem rows) → m ≤ n := by
  intro es
  induction es with
  | nil =>
    intro rng rem rows f hf o m hm n hmem
    simp [iterateLoop, visitPairs] at hmem
  | cons e es ih =>
    intro rng rem rows f hf o m hm n hmem
    simp only [iterateLoop] at hmem
    by_cases hd : s.max_walk_time_ms < e
    · rw [if_pos hd] at hmem
      simp [visitPairs] at hmem
    · rw [if_neg hd] at hmem
      cases hc : getNextTxToConsider rows
          (startChoice rem rng s.consider_no_estimate_tx_prob) with
      | noTransactions =>
        rw [hc] at hmem
        simp [visitPairs] at hmem
      | updateNonces addrs =>
        rw [hc] at hmem
        dsimp only at hmem
        obtain ⟨r0, hr0, hneed⟩ := getNextTxToConsider_update hc
        have hpre : ∀ a ∈ addrs, f a = none ∨ f a = some (c a) := by
          intro a ha
          rcases hneed a ha with ⟨he, h0⟩ | ⟨he, h0⟩
          · subst he
            left
            rw [← (hf r0 hr0).1]
            exact h0
          · subst he
            left
            rw [← (hf r0 hr0).2]
            exact h0
        obtain ⟨f2, hf2, hmono⟩ :=
          addrState_processUpdate c addrs rows f none hf hpre
        exact ih _ _ _ f2 hf2 o m (hmono o m hm) n hmem
      | consider r upd =>
        rw [hc] at hmem
        dsimp only at hmem
        obtain ⟨hrmem, hlko, hlks⟩ := getNextTxToConsider_consider hc
        have hn : f r.origin_address = some r.origin_nonce := by
          rw [← (hf r hrmem).1]
          exact hlko
        by_cases ht : todo r upd
        · rw [if_pos ht] at hmem
          simp only [visitPairs, List.map_cons, List.mem_cons] at hmem
          rcases hmem with heq | hmem2
          · have hon : o = r.origin_address ∧ n = r.origin_nonce := by
              simpa using heq
            rw [hon.1] at hm
            rw [hn] at hm
            cases hm
            omega
          · obtain ⟨g, hg, hmono, -⟩ := bump_package hf r hn
            obtain ⟨w, hw, hle⟩ := hmono o m hm
            exact Nat.le_trans hle (ih _ _ _ g hg o w hw n hmem2)
        · rw [if_neg ht] at hmem
          simp only [visitPairs, List.map_cons, List.map_nil, List.mem_cons,
            List.not_mem_nil, or_false] at hmem
          have hon : o = r.origin_address ∧ n = r.origin_nonce := by
            simpa using hmem
          rw [hon.1] at hm
          rw [hn] at hm
          cases hm
          omega

/- The visit record never repeats an (origin address, origin nonce)
slot. -/

theorem iterateLoop_visits_nodup (c : Nat → Nat) (todo : MemPoolRow → Bool → Bool)
    (s : MemPoolWalkSettings) :
    ∀ (es rng : List Nat) (rem : Option Bool) (rows : List MemPoolRow)
      (f : Nat → Option Nat), addrState f rows →
      (visitPairs (iterateLoop c todo s es rng rem rows)).Nodup := by
  intro es
  induction es with
  | nil =>
    intro rng rem rows f hf
    simp [iterateLoop, visitPairs]
  | cons e es ih =>
    intro rng rem rows f hf
    simp only [iterateLoop]
    by_cases hd : s.max_walk_time_ms < e
    · rw [if_pos hd]
      simp [visitPairs]
    · rw [if_neg hd]
      cases hc : getNextTxToConsider rows
          (startChoice rem rng s.consider_no_estimate_tx_prob) with
      | noTransactions =>
        simp [visitPairs]
      | updateNonces addrs =>
        dsimp only
        obtain ⟨r0, hr0, hneed⟩ := getNextTxToConsider_update hc
        have hpre : ∀ a ∈ addrs, f a = none ∨ f a = some (c a) := by
          intro a ha
          rcases hneed a ha with ⟨he, h0⟩ | ⟨he, h0⟩
          · subst he
            left
            rw [← (hf r0 hr0).1]
            exact h0
          · subst he
            left
            rw [← (hf r0 hr0).2]
            exact h0
        obtain ⟨f2, hf2, -⟩ := addrState_processUpdate c addrs rows f none hf hpre
        exact ih _ _ _ f2 hf2
      | consider r upd =>
        dsimp only
        obtain ⟨hrmem, hlko, hlks⟩ := getNextTxToConsider_consider hc
        have hn : f r.origin_address = some r.origin_nonce := by
          rw [← (hf r hrmem).1]
          exact hlko
        by_cases ht : todo r upd
        · rw [if_pos ht]
          simp only [visitPairs, List.map_cons]
          rw [List.nodup_cons]
          obtain ⟨g, hg, -, w, hw, hlt⟩ := bump_package hf r hn
          constructor
          · intro hmem2
            have hge := iterateLoop_future_visits c todo s es _ none _ g hg
              r.origin_address w hw r.origin_nonce hmem2
            omega
          · exact ih _ _ _ g hg
        · rw [if_neg ht]
          simp [visitPairs]

/-- Claim C6 (amended): in a pass of iterate_candidates that starts with
every last known nonce NULL (the state reset_last_known_nonces leaves) and
sees no external mempool writes, each (origin address, origin nonce) slot
is passed to the visit callback at most once.  An origin address can be
visited several times in one pass, once per successive nonce, because the
post-visit bump deliberately readies the next transaction of the same
account; the frozen claim (at most one visit per origin per pass) is
refuted by c6_counterexample. -/
theorem c6_visit_slots_distinct (c : Nat → Nat) (todo : MemPoolRow → Bool → Bool)
    (s : MemPoolWalkSettings) (es rng : List Nat) (rows : List MemPoolRow)
    (hnull : ∀ r ∈ rows, r.last_known_origin_nonce = none ∧
      r.last_known_sponsor_nonce = none) :
    (visitPairs (iterateCandidates c todo s es rng rows)).Nodup :=
  iterateLoop_visits_nodup c todo s es rng none rows (fun _ => none)
    (fun r hr => hnull r hr)

/-- Witness for C6 at a concrete input: the two-transaction pass visits
the distinct slots (7, 5) and (7, 6). -/
theorem c6_witness :
    (visitPairs (iterateCandidates c6ChainNonce (fun _ _ => true) c10SettingsA
      c6Elapsed c6Rng c6Rows)).Nodup ∧
    visitPairs (iterateCandidates c6ChainNonce (fun _ _ => true) c10SettingsA
      c6Elapsed c6Rng c6Rows) = [(7, 5), (7, 6)] :=
  ⟨c6_visit_slots_distinct c6ChainNonce (fun _ _ => true) c10SettingsA
    c6Elapsed c6Rng c6Rows (by decide), by decide⟩

/-- Counterexample to C6 as frozen: with two pending transactions of
origin 7 at nonces 5 and 6 and the account nonce at 5, a single pass
invokes the visit callback twice for origin 7 (once per nonce), so the
origin-address record of the pass has a duplicate. -/
theorem c6_counterexample :
    (visitPairs (iterateCandidates c6ChainNonce (fun _ _ => true) c10SettingsA
      c6Elapsed c6Rng c6Rows)).map Prod.fst = [7, 7] ∧
    ¬ ((visitPairs (iterateCandidates c6ChainNonce (fun _ _ => true) c10SettingsA
      c6Elapsed c6Rng c6Rows)).map Prod.fst).Nodup := by
  constructor
  · decide
  · decide

/- C10: the walk never reads min_tx_fee. -/

theorem iterateLoop_settings_congr (c : Nat → Nat) (todo : MemPoolRow → Bool → Bool)
    (s1 s2 : MemPoolWalkSettings)
    (hw : s1.max_walk_time_ms = s2.max_walk_time_ms)
    (hp : s1.consider_no_estimate_tx_prob = s2.consider_no_estimate_tx_prob) :
    ∀ (es rng : List Nat) (rem : Option Bool) (rows : List MemPoolRow),
      iterateLoop c todo s1 es rng rem rows
        = iterateLoop c todo s2 es rng rem rows := by
  intro es
  induction es with
  | nil => intro rng rem rows; rfl
  | cons e es ih =>
    intro rng rem rows
    simp only [iterateLoop]
    rw [hw, hp]
    by_cases hd : s2.max_walk_time_ms < e
    · rw [if_pos hd, if_pos hd]
    · rw [if_neg hd, if_neg hd]
      cases hc : getNextTxToConsider rows
          (startChoice rem rng s2.consider_no_estimate_tx_prob) with
      | noTransactions => rfl
      | updateNonces addrs => exact ih _ _ _
      | consider r upd =>
        dsimp only
        by_cases ht : todo r upd
        · rw [if_pos ht, if_pos ht, ih _ _ _]
        · rw [if_neg ht, if_neg ht]

/-- Claim C10: two runs of iterate_candidates from the same table, the
same chainstate view, the same clock readings and the same sampler draws,
whose settings differ only in min_tx_fee, pass the same candidates to the
visit callback in the same order, return the same count and leave the same
table: the walk never reads min_tx_fee. -/
theorem c10_min_tx_fee_has_no_effect (c : Nat → Nat)
    (todo : MemPoolRow → Bool → Bool) (s1 s2 : MemPoolWalkSettings)
    (hw : s1.max_walk_time_ms = s2.max_walk_time_ms)
    (hp : s1.consider_no_estimate_tx_prob = s2.consider_no_estimate_tx_prob)
    (es rng : List Nat) (rows : List MemPoolRow) :
    iterateCandidates c todo s1 es rng rows
      = iterateCandidates c todo s2 es rng rows :=
  iterateLoop_settings_congr c todo s1 s2 hw hp es rng none rows

/-- Witness for C10 at a concrete input: min_tx_fee 0 versus 500, same
run. -/
theorem c10_witness :
    iterateCandidates c6ChainNonce (fun _ _ => true) c10SettingsA
      c6Elapsed c6Rng c6Rows
    = iterateCandidates c6ChainNonce (fun _ _ => true) c10SettingsB
      c6Elapsed c6Rng c6Rows :=
  c10_min_tx_fee_has_no_effect c6ChainNonce (fun _ _ => true)
    c10SettingsA c10SettingsB rfl rfl c6Elapsed c6Rng c6Rows

end Mempool
